import Mathlib

/-!
Verification of the Vespa bucket identifier core
(`document/src/vespa/document/bucket/bucketid.cpp`).

Machine words are embedded as `Nat` with explicit `% 2 ^ 64` wherever the
C++ `uint64_t` arithmetic can wrap.  Functions whose bodies live in
`bucketid.cpp` are translated directly from that source; members that the
excerpt only declares (the accessors and the validating mutator of
`bucketid.h`) are modelled from the specification and marked as such in
their doc comments.
-/

namespace Document

/-- Modelled from the spec: the class constant `maxNumBits` (maximum used-bits
count); the spec fixes a 64-bit word with a class maximum of 58 used bits. -/
def maxNumBits : Nat := 58

/-- Modelled from the spec: the class constant `CountBits`, the width of the
count field, `word-width - maxUsedBits = 64 - 58 = 6` high-order bits. -/
def CountBits : Nat := 6

/-- `__builtin_bswap64`: reverse the byte order of a 64-bit word. -/
def bswap64 (x : Nat) : Nat :=
  ((x &&& 0xFF) <<< 56) ||| (((x >>> 8) &&& 0xFF) <<< 48) |||
  (((x >>> 16) &&& 0xFF) <<< 40) ||| (((x >>> 24) &&& 0xFF) <<< 32) |||
  (((x >>> 32) &&& 0xFF) <<< 24) ||| (((x >>> 40) &&& 0xFF) <<< 16) |||
  (((x >>> 48) &&& 0xFF) <<< 8) ||| ((x >>> 56) &&& 0xFF)

/-- `BucketId::reverse` (bucketid.cpp:119-126): swap adjacent bits, swap bit
pairs, swap nibbles, then byte-swap the whole word. -/
def reverse (id : Nat) : Nat :=
  let id1 := (((id &&& 0x5555555555555555) <<< 1) % 2 ^ 64) |||
             ((id &&& 0xAAAAAAAAAAAAAAAA) >>> 1)
  let id2 := (((id1 &&& 0x3333333333333333) <<< 2) % 2 ^ 64) |||
             ((id1 &&& 0xCCCCCCCCCCCCCCCC) >>> 2)
  let id3 := (((id2 &&& 0x0F0F0F0F0F0F0F0F) <<< 4) % 2 ^ 64) |||
             ((id2 &&& 0xF0F0F0F0F0F0F0F0) >>> 4)
  bswap64 id3

/-- `fillUsedMasks` (bucketid.cpp:44-51): entry `usedBits` is
`(MAX << notused) >> notused` with `notused = 64 - usedBits`, except that
entry `0` is all ones. -/
def fillUsedMasks (maxBits : Nat) : List Nat :=
  (List.range (maxBits + 1)).map fun usedBits =>
    let notused := 64 - usedBits
    if usedBits > 0 then (((2 ^ 64 - 1) <<< notused) % 2 ^ 64) >>> notused
    else 2 ^ 64 - 1

/-- `fillStripMasks` (bucketid.cpp:53-62): each entry is the used mask OR'd
with the constant count-field mask `(MAX >> maxBits) << maxBits`. -/
def fillStripMasks (maxBits : Nat) : List Nat :=
  (List.range (maxBits + 1)).map fun usedBits =>
    let notused := 64 - usedBits
    let usedMask := if usedBits > 0 then (((2 ^ 64 - 1) <<< notused) % 2 ^ 64) >>> notused
                    else 2 ^ 64 - 1
    let countMask := ((2 ^ 64 - 1) >>> maxBits) <<< maxBits
    usedMask ||| countMask

/-- The process-wide table `BucketId::_usedMasks` after initialization. -/
def usedMasks : List Nat := fillUsedMasks maxNumBits

/-- The process-wide table `BucketId::_stripMasks` after initialization. -/
def stripMasks : List Nat := fillStripMasks maxNumBits

/-- The process-wide mutable table state written by `BucketId::initialize`. -/
structure MaskTables where
  used : List Nat
  strip : List Nat

/-- `BucketId::initialize` (bucketid.cpp:75-78) as a state transformer: it
overwrites both tables with the fill results, ignoring the prior contents. -/
def initTables (_ : MaskTables) : MaskTables :=
  { used := fillUsedMasks maxNumBits, strip := fillStripMasks maxNumBits }

/-- A bucket identifier: a raw 64-bit value (`BucketId::_id`). -/
structure BucketId where
  id : Nat

/-- Modelled from the spec: `BucketId::getRawId` returns the raw unchecked
64-bit value (declared in bucketid.h, which is outside the excerpt). -/
def BucketId.getRawId (b : BucketId) : Nat := b.id

/-- Modelled from the spec: `BucketId::getUsedBits` reads the count field,
the top `64 - maxNumBits` bits of the raw value (declared in bucketid.h). -/
def BucketId.getUsedBits (b : BucketId) : Nat := b.id >>> maxNumBits

/-- Modelled from the spec: `BucketId::getStripMask` looks up the strip-mask
table at the used-bits count (declared in bucketid.h).  An out-of-range
count is undefined behaviour in the C++; the model returns 0 there. -/
def BucketId.getStripMask (b : BucketId) : Nat := stripMasks.getD b.getUsedBits 0

/-- Modelled from the spec: `BucketId::getId` returns the canonical value,
the raw value stripped of the don't-care location bits above the used-bits
count (declared in bucketid.h). -/
def BucketId.getId (b : BucketId) : Nat := b.id &&& b.getStripMask

/-- `BucketId::throwFailedSetUsedBits` (bucketid.cpp:113-117): the message of
the IllegalArgument-class error raised on an out-of-range used-bits count. -/
def throwFailedSetUsedBits (used availBits : Nat) : String :=
  "Failed to set used bits to " ++ toString used ++ ", max is " ++
    toString availBits ++ "."

/-- Modelled from the spec: `BucketId::setUsedBits` (declared in bucketid.h)
validates `used <= maxNumBits`, raising the IllegalArgument-class error built
by `throwFailedSetUsedBits` otherwise; on success it clears the count field
of the raw value (shift up then down by `CountBits`) and overlays the new
count. -/
def BucketId.setUsedBits (b : BucketId) (used : Nat) : Except String BucketId :=
  if used > maxNumBits then .error (throwFailedSetUsedBits used maxNumBits)
  else .ok ⟨(((b.id <<< CountBits) % 2 ^ 64) >>> CountBits) |||
            ((used <<< maxNumBits) % 2 ^ 64)⟩

/-- Modelled from the spec: the two-argument constructor
`BucketId(useBits, id)` (declared in bucketid.h) stores `id` with its count
field replaced by `useBits`, the same re-derivation `setUsedBits` performs. -/
def BucketId.withUsedBits (useBits : Nat) (id : Nat) : BucketId :=
  ⟨(((id <<< CountBits) % 2 ^ 64) >>> CountBits) |||
   ((useBits <<< maxNumBits) % 2 ^ 64)⟩

/-- `BucketId::keyToBucketId` (bucketid.cpp:128-139): bit-reverse the key,
clear the reversed word's own top `CountBits` bits, and OR in
`key << maxNumBits`. -/
def keyToBucketId (key : Nat) : Nat :=
  let retVal := reverse key
  let usedCountMSB := (key <<< maxNumBits) % 2 ^ 64
  let retVal2 := ((retVal <<< CountBits) % 2 ^ 64) >>> CountBits
  retVal2 ||| usedCountMSB

/-- `BucketId::contains` (bucketid.cpp:141-149): `self` contains `other` iff
`other` is at least as precise and the copy of `other` reduced to `self`'s
precision has the same canonical value as `self`. -/
def BucketId.contains (self other : BucketId) : Bool :=
  if other.getUsedBits < self.getUsedBits then false
  else decide ((BucketId.withUsedBits self.getUsedBits other.getRawId).getId = self.getId)

/-- `BucketId::hash::operator()` (bucketid.cpp:80-103): forward the canonical
value `getId()` to the 64-bit content hash.  The external hash function
(XXH3) is a parameter of the model. -/
def BucketId.hashWith (f : Nat → Nat) (b : BucketId) : Nat := f b.getId

/-- One uppercase hex digit, as `%X` renders it. -/
def toHexDigit (n : Nat) : Char :=
  if n < 10 then Char.ofNat (48 + n) else Char.ofNat (55 + n)

/-- The last `n` hex digits of `v`, most significant first. -/
def hexDigits : Nat → Nat → List Char
  | 0, _ => []
  | n + 1, v => hexDigits n (v / 16) ++ [toHexDigit (v % 16)]

/-- `%016X`: exactly 16 zero-padded uppercase hex digits. -/
def hex16 (v : Nat) : String := ⟨hexDigits 16 v⟩

/-- `operator<<(asciistream&, const BucketId&)` (bucketid.cpp:151-157):
renders `BucketId(0x` then `getId()` as 16 zero-padded hex digits, then `)`.
The asciistream formatting itself is modelled from the spec's `%016X`. -/
def bucketIdFormat (b : BucketId) : String :=
  "BucketId(0x" ++ hex16 b.getId ++ ")"

/-- Big-endian byte decomposition: the last `n` bytes of `v`. -/
def toBytesBE : Nat → Nat → List Nat
  | 0, _ => []
  | n + 1, v => toBytesBE n (v >>> 8) ++ [v &&& 0xFF]

/-- Modelled from the spec: `operator<<(nbostream&, const BucketId&)`
(bucketid.cpp:164-169) writes the raw 64-bit value `_id` to the stream; the
vespalib nbostream (outside the excerpt) is a fixed-width big-endian byte
stream with no transformation or versioning. -/
def serializeBucketId (b : BucketId) : List Nat := toBytesBE 8 b.id

/-- Modelled from the spec: `operator>>(nbostream&, BucketId&)`
(bucketid.cpp:171-176) reads the raw 64-bit value back from the same
fixed-width big-endian byte stream. -/
def deserializeBucketId (bytes : List Nat) : BucketId :=
  ⟨bytes.foldl (fun acc b => acc * 256 + b) 0⟩

/-- Reference bit reversal, following the spec's words: bit `i` of the input
becomes bit `n - 1 - i` of the output. -/
def bitRev : Nat → Nat → Nat
  | 0, _ => 0
  | n + 1, x => (bitRev n (x >>> 1)) ||| ((x &&& 1) <<< n)

/-- Reference 64-bit reversal from the spec: bit 0 of the input becomes bit
63 of the output, etc. -/
def naiveReverse (x : Nat) : Nat := bitRev 64 x

/-- The reduced identifier described by claim C1's spec sentence: mask the
candidate's raw location bits with `UsedMasks[n]` and set the count field to
`n`. -/
def reduceToSpec (n : Nat) (c : BucketId) : BucketId :=
  ⟨((c.getRawId &&& usedMasks.getD n 0) % 2 ^ 58) ||| ((n <<< maxNumBits) % 2 ^ 64)⟩

end Document

namespace Document

theorem testBit_mask55 : ∀ i, i < 72 →
    Nat.testBit 0x5555555555555555 i = (decide (i < 64) && decide (i % 2 = 0)) := by decide

theorem testBit_maskAA : ∀ i, i < 72 →
    Nat.testBit 0xAAAAAAAAAAAAAAAA i = (decide (i < 64) && decide (i % 2 = 1)) := by decide

theorem testBit_mask33 : ∀ i, i < 72 →
    Nat.testBit 0x3333333333333333 i = (decide (i < 64) && decide (i % 4 < 2)) := by decide

theorem testBit_maskCC : ∀ i, i < 72 →
    Nat.testBit 0xCCCCCCCCCCCCCCCC i = (decide (i < 64) && decide (2 ≤ i % 4)) := by decide

theorem testBit_mask0F : ∀ i, i < 72 →
    Nat.testBit 0x0F0F0F0F0F0F0F0F i = (decide (i < 64) && decide (i % 8 < 4)) := by decide

theorem testBit_maskF0 : ∀ i, i < 72 →
    Nat.testBit 0xF0F0F0F0F0F0F0F0 i = (decide (i < 64) && decide (4 ≤ i % 8)) := by decide

theorem testBit_maskFF : ∀ i, i < 72 → Nat.testBit 0xFF i = decide (i < 8) := by decide

theorem testBit_mod_w (x i : Nat) :
    (x % 18446744073709551616).testBit i = (decide (i < 64) && x.testBit i) := by
  rw [show (18446744073709551616 : Nat) = 2 ^ 64 by norm_num, Nat.testBit_mod_two_pow]

set_option maxHeartbeats 1000000 in
theorem stage1_testBit (x i : Nat) (hi : i < 64) :
    ((((x &&& 0x5555555555555555) <<< 1) % 2 ^ 64) |||
      ((x &&& 0xAAAAAAAAAAAAAAAA) >>> 1)).testBit i = x.testBit (i ^^^ 1) := by
  interval_cases i <;>
    simp +decide [Nat.testBit_or, Nat.testBit_and, Nat.testBit_shiftLeft,
      Nat.testBit_shiftRight, testBit_mod_w, testBit_mask55, testBit_maskAA]

set_option maxHeartbeats 1000000 in
theorem stage2_testBit (x i : Nat) (hi : i < 64) :
    ((((x &&& 0x3333333333333333) <<< 2) % 2 ^ 64) |||
      ((x &&& 0xCCCCCCCCCCCCCCCC) >>> 2)).testBit i = x.testBit (i ^^^ 2) := by
  interval_cases i <;>
    simp +decide [Nat.testBit_or, Nat.testBit_and, Nat.testBit_shiftLeft,
      Nat.testBit_shiftRight, testBit_mod_w, testBit_mask33, testBit_maskCC]

set_option maxHeartbeats 1000000 in
theorem stage3_testBit (x i : Nat) (hi : i < 64) :
    ((((x &&& 0x0F0F0F0F0F0F0F0F) <<< 4) % 2 ^ 64) |||
      ((x &&& 0xF0F0F0F0F0F0F0F0) >>> 4)).testBit i = x.testBit (i ^^^ 4) := by
  interval_cases i <;>
    simp +decide [Nat.testBit_or, Nat.testBit_and, Nat.testBit_shiftLeft,
      Nat.testBit_shiftRight, testBit_mod_w, testBit_mask0F, testBit_maskF0]

set_option maxHeartbeats 2000000 in
theorem bswap64_testBit (x i : Nat) (hi : i < 64) :
    (bswap64 x).testBit i = x.testBit (i ^^^ 56) := by
  unfold bswap64
  interval_cases i <;>
    simp +decide [Nat.testBit_or, Nat.testBit_and, Nat.testBit_shiftLeft,
      Nat.testBit_shiftRight, testBit_maskFF]

theorem xor_aux : ∀ i, i < 64 → (i ^^^ 56 < 64 ∧ i ^^^ 56 ^^^ 4 < 64 ∧
    i ^^^ 56 ^^^ 4 ^^^ 2 < 64 ∧ i ^^^ 56 ^^^ 4 ^^^ 2 ^^^ 1 = 63 - i) := by decide

theorem reverse_testBit (x i : Nat) (hi : i < 64) :
    (reverse x).testBit i = x.testBit (63 - i) := by
  obtain ⟨h1, h2, h3, h4⟩ := xor_aux i hi
  show (bswap64 _).testBit i = _
  rw [bswap64_testBit _ _ hi, stage3_testBit _ _ h1, stage2_testBit _ _ h2,
    stage1_testBit _ _ h3, h4]

theorem byteterm_lt (y t : Nat) (ht : t ≤ 56) : (y &&& 0xFF) <<< t < 2 ^ 64 := by
  rw [Nat.shiftLeft_eq]
  have h1 : y &&& 0xFF < 2 ^ 8 := Nat.and_lt_two_pow y (show (0xFF : Nat) < 2 ^ 8 by norm_num)
  calc (y &&& 0xFF) * 2 ^ t < 2 ^ 8 * 2 ^ t := Nat.mul_lt_mul_of_pos_right h1 (by positivity)
    _ = 2 ^ (8 + t) := by rw [pow_add]
    _ ≤ 2 ^ 64 := by apply Nat.pow_le_pow_right <;> omega

theorem bswap64_lt (x : Nat) : bswap64 x < 2 ^ 64 := by
  unfold bswap64
  refine Nat.or_lt_two_pow (Nat.or_lt_two_pow (Nat.or_lt_two_pow (Nat.or_lt_two_pow
    (Nat.or_lt_two_pow (Nat.or_lt_two_pow (Nat.or_lt_two_pow ?_ ?_) ?_) ?_) ?_) ?_) ?_) ?_
  · exact byteterm_lt _ _ (by omega)
  · exact byteterm_lt _ _ (by omega)
  · exact byteterm_lt _ _ (by omega)
  · exact byteterm_lt _ _ (by omega)
  · exact byteterm_lt _ _ (by omega)
  · exact byteterm_lt _ _ (by omega)
  · exact byteterm_lt _ _ (by omega)
  · exact Nat.and_lt_two_pow _ (show (0xFF : Nat) < 2 ^ 64 by norm_num)

theorem reverse_lt (x : Nat) : reverse x < 2 ^ 64 := by
  show bswap64 _ < 2 ^ 64
  exact bswap64_lt _

theorem bitRev_lt (n x : Nat) : bitRev n x < 2 ^ n := by
  induction n generalizing x with
  | zero => simp [bitRev]
  | succ n ih =>
    apply Nat.or_lt_two_pow
    · have hle : (2 : Nat) ^ n ≤ 2 ^ (n + 1) := by apply Nat.pow_le_pow_right <;> omega
      exact lt_of_lt_of_le (ih _) hle
    · rw [Nat.shiftLeft_eq]
      have h1 : x &&& 1 < 2 := by
        have h2 := Nat.and_lt_two_pow x (show (1 : Nat) < 2 ^ 1 by norm_num)
        simpa using h2
      calc (x &&& 1) * 2 ^ n < 2 * 2 ^ n := Nat.mul_lt_mul_of_pos_right h1 (by positivity)
        _ = 2 ^ (n + 1) := by ring

theorem bitRev_testBit (n x i : Nat) :
    (bitRev n x).testBit i = (decide (i < n) && x.testBit (n - 1 - i)) := by
  induction n generalizing x i with
  | zero => simp [bitRev]
  | succ n ih =>
    rw [bitRev, Nat.testBit_or, ih, Nat.testBit_shiftLeft]
    rcases Nat.lt_trichotomy i n with h | h | h
    · have hge : (decide (i ≥ n)) = false := by simp; omega
      rw [hge, Bool.false_and, Bool.or_false, Nat.testBit_shiftRight]
      have h2 : n + 1 - 1 - i = n - i := by omega
      have h3 : 1 + (n - 1 - i) = n - i := by omega
      rw [h2, h3]
      simp [h, Nat.lt_succ_of_lt h]
    · subst h
      have e1 : i - i = 0 := by omega
      have e2 : i + 1 - 1 - i = 0 := by omega
      have e3 : (decide (i < i)) = false := by simp
      rw [e1, e2, e3, Bool.false_and, Bool.false_or]
      have e4 : (decide (i ≥ i)) = true := by simp
      rw [e4, Bool.true_and]
      have e5 : (decide (i < i + 1)) = true := by simp
      rw [e5, Bool.true_and, Nat.testBit_and]
      simp +decide
    · have hpow : (2 : Nat) ≤ 2 ^ (i - n) := by
        have h2 : (2 : Nat) ^ 1 ≤ 2 ^ (i - n) := by apply Nat.pow_le_pow_right <;> omega
        simpa using h2
      have hf : (x % 2).testBit (i - n) = false :=
        Nat.testBit_lt_two_pow (lt_of_lt_of_le (Nat.mod_lt x (by omega)) hpow)
      have h1 : (decide (i < n)) = false := by simp; omega
      have h2 : (decide (i < n + 1)) = false := by simp; omega
      simp [h1, h2, hf, Nat.and_one_is_mod]

/-- Claim C4: the three-stage bit reversal (`reverse`) returns exactly the
same result as the naive reference reversal that moves bit `i` of the input
to bit `63 - i` of the output, for all inputs. -/
theorem reverse_refines_naive (x : Nat) : reverse x = naiveReverse x := by
  apply Nat.eq_of_testBit_eq
  intro i
  rcases Nat.lt_or_ge i 64 with h | h
  · rw [reverse_testBit x i h, naiveReverse, bitRev_testBit]
    simp [h]
  · have hle : (2 : Nat) ^ 64 ≤ 2 ^ i := by apply Nat.pow_le_pow_right <;> omega
    have h1 : (reverse x).testBit i = false :=
      Nat.testBit_lt_two_pow (lt_of_lt_of_le (reverse_lt x) hle)
    have h2 : (naiveReverse x).testBit i = false :=
      Nat.testBit_lt_two_pow (lt_of_lt_of_le (bitRev_lt 64 x) hle)
    rw [h1, h2]

/-- Claim C8: `reverse` is an involution on 64-bit words, and the all-zero
and all-one words are fixed points. -/
theorem reverse_involution : (∀ x, x < 2 ^ 64 → reverse (reverse x) = x) ∧
    reverse 0 = 0 ∧ reverse (2 ^ 64 - 1) = 2 ^ 64 - 1 := by
  refine ⟨fun x hx => ?_, by rfl, by rfl⟩
  apply Nat.eq_of_testBit_eq
  intro i
  rcases Nat.lt_or_ge i 64 with h | h
  · rw [reverse_testBit _ i h, reverse_testBit x (63 - i) (by omega)]
    congr 1
    omega
  · have hle : (2 : Nat) ^ 64 ≤ 2 ^ i := by apply Nat.pow_le_pow_right <;> omega
    have h1 : (reverse (reverse x)).testBit i = false :=
      Nat.testBit_lt_two_pow (lt_of_lt_of_le (reverse_lt _) hle)
    have h2 : x.testBit i = false := Nat.testBit_lt_two_pow (lt_of_lt_of_le hx hle)
    rw [h1, h2]

theorem reverse_involution_witness :
    reverse (reverse 81985529216486895) = 81985529216486895 :=
  reverse_involution.1 81985529216486895 (by norm_num)

end Document

namespace Document

theorem usedMasks_getD_val : ∀ u, u ≤ 58 →
    usedMasks.getD u 0 = (if u = 0 then 2 ^ 64 - 1 else 2 ^ u - 1) := by decide

theorem stripMasks_getD_val : ∀ u, u ≤ 58 →
    stripMasks.getD u 0 = usedMasks.getD u 0 ||| (63 <<< 58) := by decide

theorem stripMasks_length : stripMasks.length = 59 := by
  simp [stripMasks, fillStripMasks, maxNumBits]

theorem stripMasks_getD_oob (u : Nat) (hu : 58 < u) : stripMasks.getD u 0 = 0 := by
  apply List.getD_eq_default
  rw [stripMasks_length]
  omega

/-- Claim C3: after initialization, for every `n` in `[0, maxUsedBits]`,
`UsedMasks[n]` has exactly the low `n` bits set (all bits when `n = 0`) and
`StripMasks[n]` is `UsedMasks[n]` OR'd with the constant count-field mask
`(ALL_ONES >> maxBits) << maxBits`. -/
theorem mask_tables_correct : ∀ n, n ≤ 58 →
    usedMasks.getD n 0 = (if n = 0 then 2 ^ 64 - 1 else 2 ^ n - 1) ∧
    stripMasks.getD n 0 =
      usedMasks.getD n 0 ||| (((2 ^ 64 - 1) >>> maxNumBits) <<< maxNumBits) := by decide

theorem mask_tables_correct_witness :
    usedMasks.getD 16 0 = (if 16 = 0 then 2 ^ 64 - 1 else 2 ^ 16 - 1) ∧
    stripMasks.getD 16 0 =
      usedMasks.getD 16 0 ||| (((2 ^ 64 - 1) >>> maxNumBits) <<< maxNumBits) :=
  mask_tables_correct 16 (by norm_num)

/-- Claim C10: `initialize` is idempotent: after `n ≥ 1` calls the mask-table
state equals the state after one call, since every call rewrites both tables
with the same fill results. -/
theorem initTables_idempotent :
    ∀ (s : MaskTables) (n : Nat), 1 ≤ n → initTables^[n] s = initTables s := by
  intro s n hn
  induction n with
  | zero => exact absurd hn (by omega)
  | succ n ih =>
    rcases Nat.eq_zero_or_pos n with h | h
    · subst h
      rfl
    · rw [Function.iterate_succ_apply', ih h]
      rfl

theorem initTables_idempotent_witness :
    initTables^[3] ⟨[], []⟩ = initTables ⟨[], []⟩ :=
  initTables_idempotent ⟨[], []⟩ 3 (by norm_num)

/-- Claim C5: setting the used-bits count above `maxNumBits` fails with the
IllegalArgument-class error whose message reports the attempted value and
the maximum, while setting it to `maxNumBits` or less succeeds. -/
theorem setUsedBits_bound (b : BucketId) (used : Nat) :
    (used ≤ maxNumBits →
      b.setUsedBits used = Except.ok (BucketId.withUsedBits used b.id)) ∧
    (maxNumBits < used →
      b.setUsedBits used = Except.error (throwFailedSetUsedBits used maxNumBits) ∧
      throwFailedSetUsedBits used maxNumBits =
        "Failed to set used bits to " ++ toString used ++ ", max is " ++
          toString maxNumBits ++ ".") := by
  constructor
  · intro h
    rw [BucketId.setUsedBits, if_neg (by omega)]
    rfl
  · intro h
    rw [BucketId.setUsedBits, if_pos (by omega)]
    exact ⟨rfl, rfl⟩

theorem setUsedBits_bound_witness :
    ((BucketId.mk 7).setUsedBits 58 = Except.ok (BucketId.withUsedBits 58 7)) ∧
    ((BucketId.mk 7).setUsedBits 59 =
        Except.error (throwFailedSetUsedBits 59 maxNumBits) ∧
      throwFailedSetUsedBits 59 maxNumBits =
        "Failed to set used bits to " ++ toString 59 ++ ", max is " ++
          toString maxNumBits ++ ".") :=
  ⟨(setUsedBits_bound ⟨7⟩ 58).1 (by decide), (setUsedBits_bound ⟨7⟩ 59).2 (by decide)⟩

theorem foldl_toBytesBE (n : Nat) : ∀ v acc,
    (toBytesBE n v).foldl (fun a b => a * 256 + b) acc = acc * 256 ^ n + v % 256 ^ n := by
  induction n with
  | zero =>
    intro v acc
    simp [toBytesBE, Nat.mod_one]
  | succ n ih =>
    intro v acc
    rw [toBytesBE, List.foldl_append, ih]
    simp only [List.foldl_cons, List.foldl_nil]
    rw [Nat.shiftRight_eq_div_pow, show (0xFF : Nat) = 2 ^ 8 - 1 by norm_num,
      Nat.and_pow_two_sub_one_eq_mod]
    have h1 : v / 2 ^ 8 = v / 256 := by norm_num
    have h2 : v % 2 ^ 8 = v % 256 := by norm_num
    have h3 : v % 256 ^ (n + 1) = v % 256 + 256 * (v / 256 % 256 ^ n) := by
      rw [pow_succ']
      exact Nat.mod_mul
    rw [h1, h2, h3]
    ring

/-- Claim C7: serializing a bucket identifier to the fixed-width binary
stream and deserializing it back restores the raw 64-bit value bit for bit. -/
theorem serialize_roundtrip (v : Nat) (hv : v < 2 ^ 64) :
    deserializeBucketId (serializeBucketId ⟨v⟩) = ⟨v⟩ := by
  unfold deserializeBucketId serializeBucketId
  rw [foldl_toBytesBE]
  congr 1
  rw [Nat.zero_mul, Nat.zero_add]
  exact Nat.mod_eq_of_lt (lt_of_lt_of_le hv (by norm_num))

theorem serialize_roundtrip_witness :
    deserializeBucketId (serializeBucketId ⟨81985529216486895⟩) = ⟨81985529216486895⟩ :=
  serialize_roundtrip 81985529216486895 (by norm_num)

theorem hexDigits_length (n : Nat) : ∀ v, (hexDigits n v).length = n := by
  induction n with
  | zero => intro v; rfl
  | succ n ih => intro v; simp [hexDigits, ih]

/-- Claim C6 counterexample: the formatter renders the canonical value
`getId()`, not the raw stored value: the raw value `0x0400000000000002`
(used-bits 1, a don't-care location bit set) does not render as its own hex
digits but as those of its stripped value `0x0400000000000000`. -/
theorem format_raw_counterexample :
    bucketIdFormat ⟨0x0400000000000002⟩ ≠ "BucketId(0x0400000000000002)" ∧
    bucketIdFormat ⟨0x0400000000000002⟩ = "BucketId(0x0400000000000000)" := by
  constructor
  · decide
  · decide

/-- Claim C6 (amended): the text formatter renders exactly
`BucketId(0x<16 zero-padded hex digits of the canonical 64-bit value
getId()>)`; in particular the raw value `0x2A` (whose canonical value equals
the raw value) formats as `BucketId(0x000000000000002A)`. -/
theorem format_canonical (b : BucketId) :
    bucketIdFormat b = "BucketId(0x" ++ hex16 b.getId ++ ")" ∧
    (hex16 b.getId).length = 16 ∧
    bucketIdFormat ⟨0x2A⟩ = "BucketId(0x000000000000002A)" := by
  refine ⟨rfl, ?_, by decide⟩
  show (hexDigits 16 b.getId).length = 16
  exact hexDigits_length 16 _

end Document

namespace Document

theorem and_shl_comm (x m k : Nat) : x &&& (m <<< k) = ((x >>> k) &&& m) <<< k := by
  apply Nat.eq_of_testBit_eq
  intro i
  rw [Nat.testBit_and, Nat.testBit_shiftLeft, Nat.testBit_shiftLeft, Nat.testBit_and,
    Nat.testBit_shiftRight]
  by_cases h : k ≤ i
  · rw [decide_eq_true (show i ≥ k from h), Bool.true_and, Bool.true_and,
      show k + (i - k) = i by omega]
  · rw [decide_eq_false (show ¬ i ≥ k from h)]
    simp

theorem shl_mod_split (z k m : Nat) (h : k + m = 64) :
    (z <<< k) % 2 ^ 64 = (z % 2 ^ m) <<< k := by
  rw [Nat.shiftLeft_eq, Nat.shiftLeft_eq, ← h, pow_add, Nat.mul_comm (2 ^ k) (2 ^ m)]
  exact Nat.mul_mod_mul_right (2 ^ k) z (2 ^ m)

theorem low_after_shift6 (z : Nat) : ((z <<< 6) % 2 ^ 64) >>> 6 = z % 2 ^ 58 := by
  rw [shl_mod_split z 6 58 rfl, Nat.shiftLeft_eq, Nat.shiftRight_eq_div_pow]
  exact Nat.mul_div_cancel _ (by positivity)

theorem or_shl_mod (x m k : Nat) (hx : x < 2 ^ k) : (x ||| (m <<< k)) % 2 ^ k = x := by
  apply Nat.eq_of_testBit_eq
  intro i
  rw [Nat.testBit_mod_two_pow, Nat.testBit_or, Nat.testBit_shiftLeft]
  by_cases h : i < k
  · rw [decide_eq_true h, Bool.true_and, decide_eq_false (show ¬ i ≥ k by omega),
      Bool.false_and, Bool.or_false]
  · rw [decide_eq_false h, Bool.false_and]
    exact (Nat.testBit_lt_two_pow (lt_of_lt_of_le hx
      (by apply Nat.pow_le_pow_right <;> omega))).symm

theorem or_shl_shr (x m k : Nat) (hx : x < 2 ^ k) : (x ||| (m <<< k)) >>> k = m := by
  apply Nat.eq_of_testBit_eq
  intro i
  rw [Nat.testBit_shiftRight, Nat.testBit_or, Nat.testBit_shiftLeft]
  have hxb : x.testBit (k + i) = false :=
    Nat.testBit_lt_two_pow (lt_of_lt_of_le hx (by apply Nat.pow_le_pow_right <;> omega))
  rw [hxb, Bool.false_or, decide_eq_true (show k + i ≥ k by omega), Bool.true_and,
    show k + i - k = i by omega]

/-- Claim C2 counterexample: the count field seeded by `keyToBucketId` is not
the key's top `W - maxUsedBits` bits: at `key = 1` the result's count field
is 1 (the key's low bits) while the key's top bits are 0. -/
theorem keyToBucketId_top_counterexample :
    keyToBucketId 1 >>> maxNumBits ≠ 1 >>> maxNumBits := by decide

/-- Claim C2 (amended): `keyToBucketId key` equals `reverse key` with its own
top count-field bits cleared (the bottom `W - countFieldWidth` bits carry the
bit-reversed key), OR'd with `key << maxUsedBits` reduced to 64 bits; so the
count field is seeded from the original key's LOW `W - maxUsedBits` bits
(not its top bits). -/
theorem keyToBucketId_layout (key : Nat) :
    keyToBucketId key = ((reverse key) % 2 ^ 58) ||| ((key <<< maxNumBits) % 2 ^ 64) ∧
    (keyToBucketId key) % 2 ^ 58 = (reverse key) % 2 ^ 58 ∧
    (keyToBucketId key) >>> maxNumBits = key % 2 ^ CountBits := by
  rw [show maxNumBits = 58 from rfl, show CountBits = 6 from rfl]
  have e : keyToBucketId key = ((reverse key) % 2 ^ 58) ||| ((key <<< 58) % 2 ^ 64) := by
    show (((reverse key) <<< CountBits) % 2 ^ 64) >>> CountBits |||
        ((key <<< maxNumBits) % 2 ^ 64) = _
    rw [show CountBits = 6 from rfl, show maxNumBits = 58 from rfl, low_after_shift6]
  refine ⟨e, ?_, ?_⟩
  · rw [e, shl_mod_split key 58 6 rfl, or_shl_mod _ _ _ (Nat.mod_lt _ (by positivity))]
  · rw [e, shl_mod_split key 58 6 rfl, or_shl_shr _ _ _ (Nat.mod_lt _ (by positivity))]

/-- Claim C9: the hash adapter depends only on the canonical identifier
value: for any hash function `f`, two identifiers with the same used-bits
count whose raw values agree on the low used-bits location bits (but may
differ in don't-care bits) hash identically, because the adapter hashes
`getId()` rather than `getRawId()`. -/
theorem hash_canonical_only (f : Nat → Nat) (a b : BucketId)
    (hu : a.getUsedBits = b.getUsedBits)
    (hloc : a.getRawId &&& usedMasks.getD a.getUsedBits 0 =
            b.getRawId &&& usedMasks.getD b.getUsedBits 0) :
    BucketId.hashWith f a = BucketId.hashWith f b := by
  unfold BucketId.hashWith
  congr 1
  unfold BucketId.getId BucketId.getStripMask
  unfold BucketId.getRawId at hloc
  rw [← hu] at hloc ⊢
  by_cases hle : a.getUsedBits ≤ 58
  · rw [stripMasks_getD_val _ hle, Nat.and_or_distrib_left, Nat.and_or_distrib_left, hloc]
    congr 1
    rw [and_shl_comm, and_shl_comm]
    have hshr : a.id >>> 58 = b.id >>> 58 := by
      have h2 := hu
      unfold BucketId.getUsedBits at h2
      rw [show maxNumBits = 58 from rfl] at h2
      exact h2
    rw [hshr]
  · rw [stripMasks_getD_oob _ (by omega), Nat.and_zero, Nat.and_zero]

theorem hash_canonical_only_witness :
    BucketId.hashWith (fun x => x) ⟨(2 <<< 58) ||| 1⟩ =
      BucketId.hashWith (fun x => x) ⟨((2 <<< 58) ||| 1) ||| (1 <<< 10)⟩ :=
  hash_canonical_only (fun x => x) ⟨(2 <<< 58) ||| 1⟩ ⟨((2 <<< 58) ||| 1) ||| (1 <<< 10)⟩
    (by decide) (by decide)

end Document

namespace Document

theorem shl58_small (u : Nat) (hu : u < 64) : (u <<< 58) % 2 ^ 64 = u <<< 58 := by
  apply Nat.mod_eq_of_lt
  rw [Nat.shiftLeft_eq]
  calc u * 2 ^ 58 < 64 * 2 ^ 58 := Nat.mul_lt_mul_of_pos_right hu (by positivity)
    _ = 2 ^ 64 := by norm_num

theorem low_and_shl_zero (y m k : Nat) (hy : y < 2 ^ k) : y &&& (m <<< k) = 0 := by
  rw [and_shl_comm, Nat.shiftRight_eq_div_pow, Nat.div_eq_of_lt hy, Nat.zero_and,
    Nat.zero_shiftLeft]

theorem shl_and_low_zero (m k j : Nat) (hj : j ≤ k) : (m <<< k) &&& (2 ^ j - 1) = 0 := by
  rw [Nat.and_pow_two_sub_one_eq_mod, Nat.shiftLeft_eq]
  exact Nat.mod_eq_zero_of_dvd (dvd_mul_of_dvd_right (pow_dvd_pow 2 hj) m)

theorem shl58_shr (u : Nat) : (u <<< 58) >>> 58 = u := by
  rw [Nat.shiftLeft_eq, Nat.shiftRight_eq_div_pow]
  exact Nat.mul_div_cancel _ (by positivity)

theorem shl58_and_cm (u : Nat) (hu : u < 64) : (u <<< 58) &&& (63 <<< 58) = u <<< 58 := by
  rw [and_shl_comm, shl58_shr]
  congr 1
  rw [show (63 : Nat) = 2 ^ 6 - 1 by norm_num, Nat.and_pow_two_sub_one_eq_mod]
  exact Nat.mod_eq_of_lt hu

theorem shl_and_um_zero (u : Nat) (hu : u ≤ 58) :
    (u <<< 58) &&& usedMasks.getD u 0 = 0 := by
  rcases Nat.eq_zero_or_pos u with h | h
  · subst h
    rw [Nat.zero_shiftLeft, Nat.zero_and]
  · rw [usedMasks_getD_val u hu, if_neg (by omega)]
    exact shl_and_low_zero u 58 u hu

theorem getId_or_high (y u : Nat) (hy : y < 2 ^ 58) (hu : u ≤ 58) :
    (BucketId.mk (y ||| (u <<< 58))).getId = (y &&& usedMasks.getD u 0) ||| (u <<< 58) := by
  show (y ||| u <<< 58) &&& stripMasks.getD ((y ||| u <<< 58) >>> maxNumBits) 0 = _
  rw [show maxNumBits = 58 from rfl, or_shl_shr _ _ _ hy, stripMasks_getD_val _ hu,
    Nat.and_or_distrib_left, Nat.and_distrib_right, Nat.and_distrib_right,
    low_and_shl_zero y 63 58 hy, shl_and_um_zero u hu, shl58_and_cm u (by omega),
    Nat.or_zero, Nat.zero_or]

theorem withUsedBits_getId (u x : Nat) (hu : u ≤ 58) :
    (BucketId.withUsedBits u x).getId =
      ((x % 2 ^ 58) &&& usedMasks.getD u 0) ||| (u <<< 58) := by
  have e : BucketId.withUsedBits u x = ⟨(x % 2 ^ 58) ||| (u <<< 58)⟩ := by
    unfold BucketId.withUsedBits
    rw [show CountBits = 6 from rfl, show maxNumBits = 58 from rfl, low_after_shift6,
      shl58_small u (by omega)]
  rw [e, getId_or_high _ _ (Nat.mod_lt _ (by positivity)) hu]

theorem reduceToSpec_getId (u : Nat) (c : BucketId) (hu : u ≤ 58) :
    (reduceToSpec u c).getId =
      (((c.id &&& usedMasks.getD u 0) % 2 ^ 58) &&& usedMasks.getD u 0) ||| (u <<< 58) := by
  unfold reduceToSpec BucketId.getRawId
  rw [show maxNumBits = 58 from rfl, shl58_small u (by omega),
    getId_or_high _ _ (Nat.mod_lt _ (by positivity)) hu]

theorem mask_mod_eq (u x : Nat) (hu : u ≤ 58) :
    (x % 2 ^ 58) &&& usedMasks.getD u 0 =
      ((x &&& usedMasks.getD u 0) % 2 ^ 58) &&& usedMasks.getD u 0 := by
  rcases Nat.eq_zero_or_pos u with h | h
  · subst h
    rw [usedMasks_getD_val 0 (by omega), if_pos rfl,
      Nat.and_pow_two_sub_one_eq_mod, Nat.and_pow_two_sub_one_eq_mod,
      Nat.and_pow_two_sub_one_eq_mod,
      Nat.mod_mod_of_dvd x (pow_dvd_pow 2 (by omega : 58 ≤ 64))]
  · rw [usedMasks_getD_val u hu, if_neg (by omega),
      Nat.and_pow_two_sub_one_eq_mod, Nat.and_pow_two_sub_one_eq_mod,
      Nat.and_pow_two_sub_one_eq_mod,
      Nat.mod_mod_of_dvd x (pow_dvd_pow 2 hu)]
    have e1 : x % 2 ^ u % 2 ^ 58 = x % 2 ^ u :=
      Nat.mod_eq_of_lt (lt_of_lt_of_le (Nat.mod_lt _ (by positivity))
        (by apply Nat.pow_le_pow_right <;> omega))
    rw [e1, Nat.mod_mod_of_dvd x dvd_rfl]

/-- Claim C1: `contains(a, c)` returns true iff `c`'s used-bits count is at
least `a`'s and the identifier obtained by reducing `c`'s raw value to `a`'s
precision (masking with `UsedMasks[a.usedBits]` and setting the count field
to `a.usedBits`) is canonically equal to `a`; in particular it is false
whenever `c.usedBits < a.usedBits`. -/
theorem contains_iff_spec (a c : BucketId) (hu : a.getUsedBits ≤ 58) :
    a.contains c = true ↔
      (a.getUsedBits ≤ c.getUsedBits ∧
        (reduceToSpec a.getUsedBits c).getId = a.getId) := by
  unfold BucketId.contains
  by_cases h : c.getUsedBits < a.getUsedBits
  · rw [if_pos h]
    simp only [Bool.false_eq_true, false_iff]
    rintro ⟨h1, _⟩
    omega
  · rw [if_neg h, decide_eq_true_eq]
    have key : (BucketId.withUsedBits a.getUsedBits c.getRawId).getId =
        (reduceToSpec a.getUsedBits c).getId := by
      unfold BucketId.getRawId
      rw [withUsedBits_getId _ _ hu, reduceToSpec_getId _ _ hu, mask_mod_eq _ _ hu]
    rw [key]
    constructor
    · intro he
      exact ⟨by omega, he⟩
    · rintro ⟨_, he⟩
      exact he

theorem contains_iff_spec_witness :
    (BucketId.mk ((5 <<< 58) ||| 3)).contains ⟨(10 <<< 58) ||| 3⟩ = true ↔
      ((BucketId.mk ((5 <<< 58) ||| 3)).getUsedBits ≤
          (BucketId.mk ((10 <<< 58) ||| 3)).getUsedBits ∧
        (reduceToSpec (BucketId.mk ((5 <<< 58) ||| 3)).getUsedBits
            ⟨(10 <<< 58) ||| 3⟩).getId = (BucketId.mk ((5 <<< 58) ||| 3)).getId) :=
  contains_iff_spec ⟨(5 <<< 58) ||| 3⟩ ⟨(10 <<< 58) ||| 3⟩ (by decide)

end Document
